import Mathlib

/-!
Verification development for the field-gathering kernels of
`fbpic/particles/gathering/cuda_methods.py` (FBPIC): the two CUDA kernels
`gather_field_gpu_linear` and `gather_field_gpu_cubic`.

Embedding conventions:
* Floating-point arithmetic is embedded as exact rational arithmetic (`ℚ`).
* Complex numbers are embedded as pairs `(re, im)` of rationals.
* The per-mode grid field arrays are embedded as total functions
  `ℤ → ℤ → ℚ × ℚ` so that the *value* of an out-of-range index can be
  reasoned about; the in-bounds claims are stated about the index values
  the kernels produce.
* `math.sqrt(xj**2 + yj**2)` is irrational in general, so the kernels take
  the precomputed radius `rj` as an extra argument; theorems that depend on
  its value constrain it by `rj * rj = xj * xj + yj * yj` and `0 ≤ rj`.
* The device helpers `add_linear_gather_for_mode` and
  `add_cubic_gather_for_mode` are imported from
  `fbpic/particles/gathering/inline_functions.py`, which is not part of the
  sources; they are modelled from the specification (sections 4.3 and 4.5).
-/

/-- Complex values are embedded as pairs `(re, im)` of rationals. -/
abbrev Cx : Type := ℚ × ℚ

/-- Complex multiplication on the pair representation. -/
def cmul (a b : Cx) : Cx := (a.1 * b.1 - a.2 * b.2, a.1 * b.2 + a.2 * b.1)

/-- One grid field array, indexed by (axial index, radial index). -/
abbrev Grid : Type := ℤ → ℤ → Cx

/-- The twelve per-mode grid field arrays passed to both kernels
(source lines 28-31 / 203-206). -/
structure Fields where
  Er_m0 : Grid
  Et_m0 : Grid
  Ez_m0 : Grid
  Er_m1 : Grid
  Et_m1 : Grid
  Ez_m1 : Grid
  Br_m0 : Grid
  Bt_m0 : Grid
  Bz_m0 : Grid
  Br_m1 : Grid
  Bt_m1 : Grid
  Bz_m1 : Grid

/-- The six per-particle outputs written by either kernel. -/
structure GatherOut where
  Ex : ℚ
  Ey : ℚ
  Ez : ℚ
  Bx : ℚ
  By : ℚ
  Bz : ℚ

/-- Cylindrical conversion (source lines 89-97 / 265-273): given the particle
position components and `rj`, the precomputed value of `sqrt(xj^2+yj^2)`,
return `(cos, sin)`; the `rj = 0` branch uses the convention `(1, 0)`. -/
def cylCosSin (xj yj rj : ℚ) : ℚ × ℚ :=
  if rj ≠ 0 then (xj * (1 / rj), yj * (1 / rj)) else (1, 0)

/-- Lower linear weight `ir_upper - r_cell` (source lines 112/114),
expressed through `ir_upper = floor c + 1`. -/
def linSlower (c : ℚ) : ℚ := ((⌊c⌋ + 1 : ℤ) : ℚ) - c

/-- Upper linear weight `r_cell - ir_lower` (source lines 113/115). -/
def linSupper (c : ℚ) : ℚ := c - ((⌊c⌋ : ℤ) : ℚ)

/-- Periodic axial boundary treatment of one index (source lines 131-141
and 305-309): a single conditional shift by `Nz` in each direction, the
second test reading the already-shifted value. -/
def wrapZ (Nz : ℤ) (i : ℤ) : ℤ :=
  let i1 := if i < 0 then i + Nz else i
  if i1 > Nz - 1 then i1 - Nz else i1

/-- The index/weight state of the linear stencil after boundary treatment
(source local variables at line 143). -/
structure LinStencil where
  iz_lower : ℤ
  iz_upper : ℤ
  ir_lower : ℤ
  ir_upper : ℤ
  Sz_lower : ℚ
  Sz_upper : ℚ
  Sr_lower : ℚ
  Sr_upper : ℚ
  Sr_guard : ℚ

/-- Linear stencil builder on the fractional cell coordinates
(source lines 107-141). -/
def linStencilCore (Nz Nr : ℤ) (r_cell z_cell : ℚ) : LinStencil :=
  let ir_lower0 : ℤ := ⌊r_cell⌋
  let ir_upper0 : ℤ := ir_lower0 + 1
  let iz_lower0 : ℤ := ⌊z_cell⌋
  let iz_upper0 : ℤ := iz_lower0 + 1
  let Sr_lower0 : ℚ := linSlower r_cell
  let Sr_upper : ℚ := linSupper r_cell
  let Sz_lower : ℚ := linSlower z_cell
  let Sz_upper : ℚ := linSupper z_cell
  let Sr_guard : ℚ := if ir_lower0 < 0 then Sr_lower0 else 0
  let Sr_lower : ℚ := if ir_lower0 < 0 then 0 else Sr_lower0
  let ir_lower1 : ℤ := if ir_lower0 < 0 then 0 else ir_lower0
  let ir_lower : ℤ := if ir_lower1 > Nr - 1 then Nr - 1 else ir_lower1
  let ir_upper : ℤ := if ir_upper0 > Nr - 1 then Nr - 1 else ir_upper0
  ⟨wrapZ Nz iz_lower0, wrapZ Nz iz_upper0, ir_lower, ir_upper,
   Sz_lower, Sz_upper, Sr_lower, Sr_upper, Sr_guard⟩

/-- Linear stencil builder on physical coordinates (source lines 104-105
compute the fractional coordinates). -/
def linStencil (invdz zmin : ℚ) (Nz : ℤ) (invdr rmin : ℚ) (Nr : ℤ)
    (rj zj : ℚ) : LinStencil :=
  linStencilCore Nz Nr (invdr * (rj - rmin) - 1/2) (invdz * (zj - zmin) - 1/2)

/-- Modelled from the spec: `add_linear_gather_for_mode` lives in
`fbpic/particles/gathering/inline_functions.py`, which is not among the
sources.  Following section 4.3, it accumulates
`F += Re(phase * field[iz][ir]) * S` over the four (axial × radial)
stencil combinations into `(Fr, Ft, Fz)`; the guard-weight products
`S_lg`, `S_ug` are received but their field contribution is not added. -/
def add_linear_gather_for_mode (exptheta : Cx) (Ar At Az : Grid)
    (iz_l iz_u ir_l ir_u : ℤ)
    (S_ll S_lu S_lg S_ul S_uu S_ug : ℚ) (F : ℚ × ℚ × ℚ) : ℚ × ℚ × ℚ :=
  (F.1 + (S_ll * (cmul exptheta (Ar iz_l ir_l)).1
        + S_lu * (cmul exptheta (Ar iz_l ir_u)).1
        + S_ul * (cmul exptheta (Ar iz_u ir_l)).1
        + S_uu * (cmul exptheta (Ar iz_u ir_u)).1),
   F.2.1 + (S_ll * (cmul exptheta (At iz_l ir_l)).1
        + S_lu * (cmul exptheta (At iz_l ir_u)).1
        + S_ul * (cmul exptheta (At iz_u ir_l)).1
        + S_uu * (cmul exptheta (At iz_u ir_u)).1),
   F.2.2 + (S_ll * (cmul exptheta (Az iz_l ir_l)).1
        + S_lu * (cmul exptheta (Az iz_l ir_u)).1
        + S_ul * (cmul exptheta (Az iz_u ir_l)).1
        + S_uu * (cmul exptheta (Az iz_u ir_u)).1))

/-- Accumulation over mode 0 then mode 1 with the linear stencil
(source lines 153-165 for E, 176-188 for B). -/
def linAccumMode2 (e0 e1 : Cx) (A0r A0t A0z A1r A1t A1z : Grid)
    (st : LinStencil) : ℚ × ℚ × ℚ :=
  add_linear_gather_for_mode e1 A1r A1t A1z
    st.iz_lower st.iz_upper st.ir_lower st.ir_upper
    (st.Sz_lower * st.Sr_lower) (st.Sz_lower * st.Sr_upper)
    (st.Sz_lower * st.Sr_guard) (st.Sz_upper * st.Sr_lower)
    (st.Sz_upper * st.Sr_upper) (st.Sz_upper * st.Sr_guard)
    (add_linear_gather_for_mode e0 A0r A0t A0z
      st.iz_lower st.iz_upper st.ir_lower st.ir_upper
      (st.Sz_lower * st.Sr_lower) (st.Sz_lower * st.Sr_upper)
      (st.Sz_lower * st.Sr_guard) (st.Sz_upper * st.Sr_lower)
      (st.Sz_upper * st.Sr_upper) (st.Sz_upper * st.Sr_guard)
      (0, 0, 0))

/-- Body of the linear kernel after the stencil is built: accumulate E and B
over both modes and apply the cylindrical-to-Cartesian projector
(source lines 151-193). -/
def linGatherFromStencil (F : Fields) (cs : ℚ × ℚ) (st : LinStencil) :
    GatherOut :=
  let e0 : Cx := (1, 0)
  let e1 : Cx := (cs.1, -cs.2)
  let FE := linAccumMode2 e0 e1 F.Er_m0 F.Et_m0 F.Ez_m0 F.Er_m1 F.Et_m1 F.Ez_m1 st
  let FB := linAccumMode2 e0 e1 F.Br_m0 F.Bt_m0 F.Bz_m0 F.Br_m1 F.Bt_m1 F.Bz_m1 st
  ⟨cs.1 * FE.1 - cs.2 * FE.2.1, cs.2 * FE.1 + cs.1 * FE.2.1, FE.2.2,
   cs.1 * FB.1 - cs.2 * FB.2.1, cs.2 * FB.1 + cs.1 * FB.2.1, FB.2.2⟩

/-- Per-particle body of `gather_field_gpu_linear` (source lines 24-193). -/
def gather_field_gpu_linear (invdz zmin : ℚ) (Nz : ℤ) (invdr rmin : ℚ)
    (Nr : ℤ) (F : Fields) (xj yj rj zj : ℚ) : GatherOut :=
  linGatherFromStencil F (cylCosSin xj yj rj)
    (linStencil invdz zmin Nz invdr rmin Nr rj zj)

/-- Raw cubic stencil index `ir[j]` rsp. `iz[j]` (source lines 286-289,
296-299): `floor c - 1 + j`. -/
def cubicIdx (c : ℚ) (j : Fin 4) : ℤ := ⌊c⌋ - 1 + j.val

/-- Cubic B-spline weights `Sr[j]` rsp. `Sz[j]` (source lines 290-293,
300-303), with the raw indices written out as `floor c - 1 + j`. -/
def cubicS (c : ℚ) (j : Fin 4) : ℚ :=
  if j.val = 0 then -1/6 * ((c - ((⌊c⌋ - 1 : ℤ) : ℚ)) - 2)^3
  else if j.val = 1 then
    1/6 * (3 * (c - ((⌊c⌋ : ℤ) : ℚ))^3 - 6 * (c - ((⌊c⌋ : ℤ) : ℚ))^2 + 4)
  else if j.val = 2 then
    1/6 * (3 * (((⌊c⌋ + 1 : ℤ) : ℚ) - c)^3
           - 6 * (((⌊c⌋ + 1 : ℤ) : ℚ) - c)^2 + 4)
  else -1/6 * ((((⌊c⌋ + 2 : ℤ) : ℚ) - c) - 2)^3

/-- Radial boundary treatment of one cubic index/weight pair
(source lines 311-316): reflection through the axis with sign flip for a
negative index, then clamp to `Nr - 1`, the clamp test reading the
already-reflected index. -/
def rBound (Nr : ℤ) (k : ℤ) (w : ℚ) : ℤ × ℚ :=
  let p := if k < 0 then (|k| - 1, -w) else (k, w)
  if p.1 > Nr - 1 then (Nr - 1, p.2) else p

/-- The index/weight state of the cubic stencil after boundary treatment. -/
structure CubicStencil where
  iz : Fin 4 → ℤ
  Sz : Fin 4 → ℚ
  ir : Fin 4 → ℤ
  Sr : Fin 4 → ℚ

/-- Cubic stencil builder on the fractional cell coordinates
(source lines 284-316). -/
def cubicStencilCore (Nz Nr : ℤ) (r_cell z_cell : ℚ) : CubicStencil :=
  ⟨fun j => wrapZ Nz (cubicIdx z_cell j),
   cubicS z_cell,
   fun j => (rBound Nr (cubicIdx r_cell j) (cubicS r_cell j)).1,
   fun j => (rBound Nr (cubicIdx r_cell j) (cubicS r_cell j)).2⟩

/-- Cubic stencil builder on physical coordinates (source lines 280-281). -/
def cubicStencil (invdz zmin : ℚ) (Nz : ℤ) (invdr rmin : ℚ) (Nr : ℤ)
    (rj zj : ℚ) : CubicStencil :=
  cubicStencilCore Nz Nr (invdr * (rj - rmin) - 1/2) (invdz * (zj - zmin) - 1/2)

/-- Modelled from the spec: `add_cubic_gather_for_mode` lives in
`fbpic/particles/gathering/inline_functions.py`, which is not among the
sources.  Following section 4.5, it accumulates
`F += Re(phase * field[iz][ir]) * S` over the 4 × 4 stencil combinations,
each weight the product of the (possibly sign-flipped) per-axis weights. -/
def add_cubic_gather_for_mode (exptheta : Cx) (Ar At Az : Grid)
    (ir iz : Fin 4 → ℤ) (Sr Sz : Fin 4 → ℚ) (F : ℚ × ℚ × ℚ) : ℚ × ℚ × ℚ :=
  (F.1 + ∑ k : Fin 4, ∑ l : Fin 4,
      Sz k * Sr l * (cmul exptheta (Ar (iz k) (ir l))).1,
   F.2.1 + ∑ k : Fin 4, ∑ l : Fin 4,
      Sz k * Sr l * (cmul exptheta (At (iz k) (ir l))).1,
   F.2.2 + ∑ k : Fin 4, ∑ l : Fin 4,
      Sz k * Sr l * (cmul exptheta (Az (iz k) (ir l))).1)

/-- Accumulation over mode 0 then mode 1 with the cubic stencil
(source lines 320-330 for E, 341-351 for B). -/
def cubicAccumMode2 (e0 e1 : Cx) (A0r A0t A0z A1r A1t A1z : Grid)
    (st : CubicStencil) : ℚ × ℚ × ℚ :=
  add_cubic_gather_for_mode e1 A1r A1t A1z st.ir st.iz st.Sr st.Sz
    (add_cubic_gather_for_mode e0 A0r A0t A0z st.ir st.iz st.Sr st.Sz
      (0, 0, 0))

/-- Body of the cubic kernel after the stencil is built
(source lines 318-356). -/
def cubicGatherFromStencil (F : Fields) (cs : ℚ × ℚ) (st : CubicStencil) :
    GatherOut :=
  let e0 : Cx := (1, 0)
  let e1 : Cx := (cs.1, -cs.2)
  let FE := cubicAccumMode2 e0 e1 F.Er_m0 F.Et_m0 F.Ez_m0 F.Er_m1 F.Et_m1 F.Ez_m1 st
  let FB := cubicAccumMode2 e0 e1 F.Br_m0 F.Bt_m0 F.Bz_m0 F.Br_m1 F.Bt_m1 F.Bz_m1 st
  ⟨cs.1 * FE.1 - cs.2 * FE.2.1, cs.2 * FE.1 + cs.1 * FE.2.1, FE.2.2,
   cs.1 * FB.1 - cs.2 * FB.2.1, cs.2 * FB.1 + cs.1 * FB.2.1, FB.2.2⟩

/-- Per-particle body of `gather_field_gpu_cubic` (source lines 199-356). -/
def gather_field_gpu_cubic (invdz zmin : ℚ) (Nz : ℤ) (invdr rmin : ℚ)
    (Nr : ℤ) (F : Fields) (xj yj rj zj : ℚ) : GatherOut :=
  cubicGatherFromStencil F (cylCosSin xj yj rj)
    (cubicStencil invdz zmin Nz invdr rmin Nr rj zj)

/-- Array-level view of the linear kernel: thread `i` writes the outputs for
particle `i` exactly when `i < N` (source lines 78-81); an unwritten slot is
`none`. -/
def gather_field_gpu_linear_all (invdz zmin : ℚ) (Nz : ℤ) (invdr rmin : ℚ)
    (Nr : ℤ) (F : Fields) (x y r z : ℕ → ℚ) (N : ℕ) (i : ℕ) :
    Option GatherOut :=
  if i < N then
    some (gather_field_gpu_linear invdz zmin Nz invdr rmin Nr F
      (x i) (y i) (r i) (z i))
  else none

/-- Array-level view of the cubic kernel (source lines 254-257). -/
def gather_field_gpu_cubic_all (invdz zmin : ℚ) (Nz : ℤ) (invdr rmin : ℚ)
    (Nr : ℤ) (F : Fields) (x y r z : ℕ → ℚ) (N : ℕ) (i : ℕ) :
    Option GatherOut :=
  if i < N then
    some (gather_field_gpu_cubic invdz zmin Nz invdr rmin Nr F
      (x i) (y i) (r i) (z i))
  else none

/-- Concrete all-zero grid fields, used by witnesses and counterexamples. -/
def zeroFields : Fields :=
  ⟨fun _ _ => (0, 0), fun _ _ => (0, 0), fun _ _ => (0, 0), fun _ _ => (0, 0),
   fun _ _ => (0, 0), fun _ _ => (0, 0), fun _ _ => (0, 0), fun _ _ => (0, 0),
   fun _ _ => (0, 0), fun _ _ => (0, 0), fun _ _ => (0, 0), fun _ _ => (0, 0)⟩

/-- Concrete fields whose mode-0 axial E component is 1 on grid row
`iz = 1` and 0 elsewhere; all other components vanish. -/
def FzRow1 : Fields :=
  { zeroFields with Ez_m0 := fun i _ => (if i = 1 then 1 else 0, 0) }

/-- Concrete fields whose mode-0 radial E component is 1 on grid column
`ir = 2` and 0 elsewhere; all other components vanish. -/
def FrCol2 : Fields :=
  { zeroFields with Er_m0 := fun _ r => (if r = 2 then 1 else 0, 0) }

/-! ### Helper lemmas -/

/-- Value of the `Fin 4` literal 0. -/
lemma finv0 : ((0 : Fin 4)).val = 0 := rfl

/-- Value of the `Fin 4` literal 1. -/
lemma finv1 : ((1 : Fin 4)).val = 1 := rfl

/-- Value of the `Fin 4` literal 2. -/
lemma finv2 : ((2 : Fin 4)).val = 2 := rfl

/-- Value of the `Fin 4` literal 3. -/
lemma finv3 : ((3 : Fin 4)).val = 3 := rfl

/-- The two linear weights sum to 1 for every fractional coordinate. -/
lemma linS_add (c : ℚ) : linSlower c + linSupper c = 1 := by
  unfold linSlower linSupper
  push_cast
  ring

/-- The four cubic B-spline weights sum to 1 for every fractional
coordinate. -/
lemma cubicS_sum (c : ℚ) : (∑ j : Fin 4, cubicS c j) = 1 := by
  rw [Fin.sum_univ_four]
  have h0 : cubicS c 0 = -1/6 * ((c - ((⌊c⌋ - 1 : ℤ) : ℚ)) - 2)^3 := rfl
  have h1 : cubicS c 1 =
      1/6 * (3 * (c - ((⌊c⌋ : ℤ) : ℚ))^3 - 6 * (c - ((⌊c⌋ : ℤ) : ℚ))^2 + 4) := rfl
  have h2 : cubicS c 2 =
      1/6 * (3 * (((⌊c⌋ + 1 : ℤ) : ℚ) - c)^3
           - 6 * (((⌊c⌋ + 1 : ℤ) : ℚ) - c)^2 + 4) := rfl
  have h3 : cubicS c 3 = -1/6 * ((((⌊c⌋ + 2 : ℤ) : ℚ) - c) - 2)^3 := rfl
  rw [h0, h1, h2, h3]
  push_cast
  ring

/-- A singly-wrapped index is in `[0, Nz-1]` iff the raw index was within
one period on either side. -/
lemma wrapZ_mem (Nz i : ℤ) (h1 : -Nz ≤ i) (h2 : i ≤ 2 * Nz - 1) :
    0 ≤ wrapZ Nz i ∧ wrapZ Nz i ≤ Nz - 1 := by
  simp only [wrapZ]
  split_ifs <;> omega

/-- Shifting a raw index by one period does not change the wrapped index,
as long as the raw index is itself within `[-Nz, Nz-1]`. -/
lemma wrapZ_period (Nz k : ℤ) (h1 : -Nz ≤ k) (h2 : k ≤ Nz - 1) :
    wrapZ Nz (k + Nz) = wrapZ Nz k := by
  simp only [wrapZ]
  split_ifs <;> omega

/-- The reflected-then-clamped radial index is unconditionally in
`[0, Nr-1]`. -/
lemma rBound_mem (Nr : ℤ) (hNr : 1 ≤ Nr) (k : ℤ) (w : ℚ) :
    0 ≤ (rBound Nr k w).1 ∧ (rBound Nr k w).1 ≤ Nr - 1 := by
  simp only [rBound]
  rcases lt_or_le k 0 with h | h
  · rw [if_pos h, abs_of_neg h]
    dsimp only
    split_ifs <;> constructor <;> omega
  · rw [if_neg (not_lt.2 h)]
    dsimp only
    split_ifs <;> constructor <;> omega

/-! ### Claim theorems (first batch) -/

/-- C3: for every real fractional cell coordinate, the two linear stencil
weights `(upper_index - c)` and `(c - lower_index)` sum to exactly 1, and
the four cubic B-spline weights computed as in the kernels sum to exactly
1, before any boundary folding or clamping. -/
theorem weights_partition_of_unity (c : ℚ) :
    linSlower c + linSupper c = 1 ∧ (∑ j : Fin 4, cubicS c j) = 1 :=
  ⟨linS_add c, cubicS_sum c⟩

/-- C10: in the cubic kernel, each of the four radial stencil indices lies
in `[0, Nr-1]` after the boundary loop, for every real radial fractional
coordinate and every `Nr ≥ 1`: reflection maps a negative index `k` to
`|k|-1 ≥ 0`, and since the clamp test follows the reflection in the same
iteration, a reflected index exceeding `Nr-1` is still clamped. -/
theorem cubic_radial_indices_in_bounds (Nz Nr : ℤ) (r_cell z_cell : ℚ)
    (j : Fin 4) (hNr : 1 ≤ Nr) :
    0 ≤ (cubicStencilCore Nz Nr r_cell z_cell).ir j ∧
      (cubicStencilCore Nz Nr r_cell z_cell).ir j ≤ Nr - 1 :=
  rBound_mem Nr hNr (cubicIdx r_cell j) (cubicS r_cell j)

/-- Witness for C10 at `Nz = 1`, `Nr = 1`, `r_cell = -50/3`, `j = 2`. -/
theorem cubic_radial_indices_in_bounds_witness :
    0 ≤ (cubicStencilCore 1 1 (-50/3) 0).ir 2 ∧
      (cubicStencilCore 1 1 (-50/3) 0).ir 2 ≤ 1 - 1 :=
  cubic_radial_indices_in_bounds 1 1 (-50/3) 0 2 (by decide)

/-- C4: in the cubic kernel, each of the four radial index/weight pairs is
transformed by: reflection `k ↦ |k|-1` with weight negation when `k < 0`,
then a clamp to `Nr-1` (applied to the possibly-reflected index) that
leaves the weight unchanged — in particular no sign flip for the upper
clamp. -/
theorem cubic_radial_boundary_spec (Nr : ℤ) (c : ℚ) (j : Fin 4) :
    (cubicIdx c j < 0 →
      (|cubicIdx c j| - 1 ≤ Nr - 1 →
        rBound Nr (cubicIdx c j) (cubicS c j) =
          (|cubicIdx c j| - 1, -cubicS c j)) ∧
      (Nr - 1 < |cubicIdx c j| - 1 →
        rBound Nr (cubicIdx c j) (cubicS c j) = (Nr - 1, -cubicS c j))) ∧
    (0 ≤ cubicIdx c j →
      (cubicIdx c j ≤ Nr - 1 →
        rBound Nr (cubicIdx c j) (cubicS c j) = (cubicIdx c j, cubicS c j)) ∧
      (Nr - 1 < cubicIdx c j →
        rBound Nr (cubicIdx c j) (cubicS c j) = (Nr - 1, cubicS c j))) := by
  constructor
  · intro h
    constructor
    · intro h2
      simp only [rBound]
      rw [if_pos h]
      dsimp only
      rw [if_neg (by omega : ¬ |cubicIdx c j| - 1 > Nr - 1)]
    · intro h2
      simp only [rBound]
      rw [if_pos h]
      dsimp only
      rw [if_pos (by omega : |cubicIdx c j| - 1 > Nr - 1)]
  · intro h
    constructor
    · intro h2
      simp only [rBound]
      rw [if_neg (not_lt.2 h)]
      dsimp only
      rw [if_neg (by omega : ¬ cubicIdx c j > Nr - 1)]
    · intro h2
      simp only [rBound]
      rw [if_neg (not_lt.2 h)]
      dsimp only
      rw [if_pos (by omega : cubicIdx c j > Nr - 1)]

/-- Witness for C4 at `Nr = 4`, `c = -5/2`, `j = 0` (a reflected index that
is still clamped from below: `k = -4`, `|k|-1 = 3 = Nr-1`). -/
theorem cubic_radial_boundary_spec_witness :
    cubicIdx (-5/2) 0 < 0 ∧
      rBound 4 (cubicIdx (-5/2) 0) (cubicS (-5/2) 0) =
        (|cubicIdx (-5/2) 0| - 1, -cubicS (-5/2) 0) :=
  ⟨by norm_num [cubicIdx], ((cubic_radial_boundary_spec 4 (-5/2) 0).1
    (by norm_num [cubicIdx])).1 (by norm_num [cubicIdx])⟩

/-- C6: for every particle, given the accumulated cylindrical components
`(Fr, Ft, Fz)` and the particle's cosine/sine, both kernels write exactly
`Fx = cos*Fr - sin*Ft`, `Fy = sin*Fr + cos*Ft` and copy `Fz` unchanged,
once for the E outputs and once for the B outputs. -/
theorem projector_formulas (F : Fields) (cs : ℚ × ℚ) (st : LinStencil)
    (stc : CubicStencil) :
    (linGatherFromStencil F cs st).Ex =
        cs.1 * (linAccumMode2 (1, 0) (cs.1, -cs.2) F.Er_m0 F.Et_m0 F.Ez_m0
            F.Er_m1 F.Et_m1 F.Ez_m1 st).1
        - cs.2 * (linAccumMode2 (1, 0) (cs.1, -cs.2) F.Er_m0 F.Et_m0 F.Ez_m0
            F.Er_m1 F.Et_m1 F.Ez_m1 st).2.1 ∧
    (linGatherFromStencil F cs st).Ey =
        cs.2 * (linAccumMode2 (1, 0) (cs.1, -cs.2) F.Er_m0 F.Et_m0 F.Ez_m0
            F.Er_m1 F.Et_m1 F.Ez_m1 st).1
        + cs.1 * (linAccumMode2 (1, 0) (cs.1, -cs.2) F.Er_m0 F.Et_m0 F.Ez_m0
            F.Er_m1 F.Et_m1 F.Ez_m1 st).2.1 ∧
    (linGatherFromStencil F cs st).Ez =
        (linAccumMode2 (1, 0) (cs.1, -cs.2) F.Er_m0 F.Et_m0 F.Ez_m0
            F.Er_m1 F.Et_m1 F.Ez_m1 st).2.2 ∧
    (linGatherFromStencil F cs st).Bx =
        cs.1 * (linAccumMode2 (1, 0) (cs.1, -cs.2) F.Br_m0 F.Bt_m0 F.Bz_m0
            F.Br_m1 F.Bt_m1 F.Bz_m1 st).1
        - cs.2 * (linAccumMode2 (1, 0) (cs.1, -cs.2) F.Br_m0 F.Bt_m0 F.Bz_m0
            F.Br_m1 F.Bt_m1 F.Bz_m1 st).2.1 ∧
    (linGatherFromStencil F cs st).By =
        cs.2 * (linAccumMode2 (1, 0) (cs.1, -cs.2) F.Br_m0 F.Bt_m0 F.Bz_m0
            F.Br_m1 F.Bt_m1 F.Bz_m1 st).1
        + cs.1 * (linAccumMode2 (1, 0) (cs.1, -cs.2) F.Br_m0 F.Bt_m0 F.Bz_m0
            F.Br_m1 F.Bt_m1 F.Bz_m1 st).2.1 ∧
    (linGatherFromStencil F cs st).Bz =
        (linAccumMode2 (1, 0) (cs.1, -cs.2) F.Br_m0 F.Bt_m0 F.Bz_m0
            F.Br_m1 F.Bt_m1 F.Bz_m1 st).2.2 ∧
    (cubicGatherFromStencil F cs stc).Ex =
        cs.1 * (cubicAccumMode2 (1, 0) (cs.1, -cs.2) F.Er_m0 F.Et_m0 F.Ez_m0
            F.Er_m1 F.Et_m1 F.Ez_m1 stc).1
        - cs.2 * (cubicAccumMode2 (1, 0) (cs.1, -cs.2) F.Er_m0 F.Et_m0 F.Ez_m0
            F.Er_m1 F.Et_m1 F.Ez_m1 stc).2.1 ∧
    (cubicGatherFromStencil F cs stc).Ey =
        cs.2 * (cubicAccumMode2 (1, 0) (cs.1, -cs.2) F.Er_m0 F.Et_m0 F.Ez_m0
            F.Er_m1 F.Et_m1 F.Ez_m1 stc).1
        + cs.1 * (cubicAccumMode2 (1, 0) (cs.1, -cs.2) F.Er_m0 F.Et_m0 F.Ez_m0
            F.Er_m1 F.Et_m1 F.Ez_m1 stc).2.1 ∧
    (cubicGatherFromStencil F cs stc).Ez =
        (cubicAccumMode2 (1, 0) (cs.1, -cs.2) F.Er_m0 F.Et_m0 F.Ez_m0
            F.Er_m1 F.Et_m1 F.Ez_m1 stc).2.2 ∧
    (cubicGatherFromStencil F cs stc).Bx =
        cs.1 * (cubicAccumMode2 (1, 0) (cs.1, -cs.2) F.Br_m0 F.Bt_m0 F.Bz_m0
            F.Br_m1 F.Bt_m1 F.Bz_m1 stc).1
        - cs.2 * (cubicAccumMode2 (1, 0) (cs.1, -cs.2) F.Br_m0 F.Bt_m0 F.Bz_m0
            F.Br_m1 F.Bt_m1 F.Bz_m1 stc).2.1 ∧
    (cubicGatherFromStencil F cs stc).By =
        cs.2 * (cubicAccumMode2 (1, 0) (cs.1, -cs.2) F.Br_m0 F.Bt_m0 F.Bz_m0
            F.Br_m1 F.Bt_m1 F.Bz_m1 stc).1
        + cs.1 * (cubicAccumMode2 (1, 0) (cs.1, -cs.2) F.Br_m0 F.Bt_m0 F.Bz_m0
            F.Br_m1 F.Bt_m1 F.Bz_m1 stc).2.1 ∧
    (cubicGatherFromStencil F cs stc).Bz =
        (cubicAccumMode2 (1, 0) (cs.1, -cs.2) F.Br_m0 F.Bt_m0 F.Bz_m0
            F.Br_m1 F.Bt_m1 F.Bz_m1 stc).2.2 :=
  ⟨rfl, rfl, rfl, rfl, rfl, rfl, rfl, rfl, rfl, rfl, rfl, rfl⟩

/-- C8: in the linear kernel, when the lower radial index is negative the
stencil builder moves the lower radial weight into the guard weight,
zeroes the lower weight and clamps the lower index to 0; otherwise the
guard weight is 0; and the accumulator's result never depends on the
guard-weight arguments. -/
theorem linear_guard_weight_policy (Nz Nr : ℤ) (r_cell z_cell : ℚ) :
    (⌊r_cell⌋ < 0 → 1 ≤ Nr →
      (linStencilCore Nz Nr r_cell z_cell).Sr_guard = linSlower r_cell ∧
      (linStencilCore Nz Nr r_cell z_cell).Sr_lower = 0 ∧
      (linStencilCore Nz Nr r_cell z_cell).ir_lower = 0) ∧
    (0 ≤ ⌊r_cell⌋ → (linStencilCore Nz Nr r_cell z_cell).Sr_guard = 0) ∧
    (∀ (e : Cx) (Ar At Az : Grid) (iz_l iz_u ir_l ir_u : ℤ)
       (S_ll S_lu S_ul S_uu g g' g2 g2' : ℚ) (Fv : ℚ × ℚ × ℚ),
      add_linear_gather_for_mode e Ar At Az iz_l iz_u ir_l ir_u
          S_ll S_lu g S_ul S_uu g2 Fv =
        add_linear_gather_for_mode e Ar At Az iz_l iz_u ir_l ir_u
          S_ll S_lu g' S_ul S_uu g2' Fv) := by
  refine ⟨fun h hNr => ?_, fun h => ?_, fun _ _ _ _ _ _ _ _ _ _ _ _ _ _ _ _ _ => rfl⟩
  · simp only [linStencilCore]
    refine ⟨?_, ?_, ?_⟩
    · rw [if_pos h]
    · rw [if_pos h]
    · rw [if_pos h, if_neg (by omega : ¬ (0 : ℤ) > Nr - 1)]
  · simp only [linStencilCore]
    rw [if_neg (not_lt.2 h)]

/-- Witness for C8 at `Nr = 4`, `r_cell = -1/4` (so the lower radial index
is `-1`). -/
theorem linear_guard_weight_policy_witness :
    ⌊(-1/4 : ℚ)⌋ < 0 ∧
      ((linStencilCore 4 4 (-1/4) 0).Sr_guard = linSlower (-1/4) ∧
       (linStencilCore 4 4 (-1/4) 0).Sr_lower = 0 ∧
       (linStencilCore 4 4 (-1/4) 0).ir_lower = 0) :=
  ⟨by norm_num, (linear_guard_weight_policy 4 4 (-1/4) 0).1 (by norm_num)
    (by norm_num)⟩

/-- C9: the outputs at particle index `i` are a deterministic function of
only the position entries at index `i`, the geometry scalars and the grid
field arrays: two runs whose position arrays agree at `i` (but may differ
anywhere else) produce identical outputs at `i`, for both kernels. -/
theorem gather_per_particle_independence (invdz zmin : ℚ) (Nz : ℤ)
    (invdr rmin : ℚ) (Nr : ℤ) (F : Fields) (x y r z x' y' r' z' : ℕ → ℚ)
    (N : ℕ) (i : ℕ) (hx : x i = x' i) (hy : y i = y' i) (hr : r i = r' i)
    (hz : z i = z' i) :
    gather_field_gpu_linear_all invdz zmin Nz invdr rmin Nr F x y r z N i =
      gather_field_gpu_linear_all invdz zmin Nz invdr rmin Nr F x' y' r' z' N i ∧
    gather_field_gpu_cubic_all invdz zmin Nz invdr rmin Nr F x y r z N i =
      gather_field_gpu_cubic_all invdz zmin Nz invdr rmin Nr F x' y' r' z' N i := by
  unfold gather_field_gpu_linear_all gather_field_gpu_cubic_all
  rw [hx, hy, hr, hz]
  exact ⟨rfl, rfl⟩

/-- Witness for C9: two runs whose `x`-arrays differ at every index other
than 0 give the same output for particle 0. -/
theorem gather_per_particle_independence_witness :
    gather_field_gpu_linear_all 1 0 4 1 0 4 zeroFields
        (fun n => if n = 0 then 1 else 99) (fun _ => 0) (fun _ => 1)
        (fun _ => 0) 1 0 =
      gather_field_gpu_linear_all 1 0 4 1 0 4 zeroFields
        (fun _ => 1) (fun _ => 0) (fun _ => 1) (fun _ => 0) 1 0 :=
  (gather_per_particle_independence 1 0 4 1 0 4 zeroFields
    (fun n => if n = 0 then 1 else 99) (fun _ => 0) (fun _ => 1) (fun _ => 0)
    (fun _ => 1) (fun _ => 0) (fun _ => 1) (fun _ => 0) 1 0
    rfl rfl rfl rfl).1

/-- C1 counterexample: the axial wrap is a single conditional shift, so a
particle far below the box keeps a negative axial index after boundary
treatment.  With `invdz = 1`, `zmin = 0`, `Nz = 8` and `zj = -17` the
fractional coordinate is `-17.5`, the raw lower index `-18`, and one shift
by `Nz` leaves `-10 ∉ [0, 7]`. -/
theorem linStencil_axial_oob :
    (linStencil 1 0 8 1 0 8 1 (-17)).iz_lower < 0 := by
  norm_num [linStencil, linStencilCore, wrapZ]

/-- C1 amended: with `Nz ≥ 1` and `Nr ≥ 1`, the linear lower radial index
is unconditionally in `[0, Nr-1]` and the cubic radial indices are
unconditionally in `[0, Nr-1]`; the remaining indices are in bounds
provided each raw index is within one wrap period of the axial axis
(`⌊z_cell⌋ ∈ [-Nz, 2Nz-2]` for the linear kernel,
`⌊z_cell⌋ ∈ [-Nz+1, 2Nz-3]` for the cubic kernel) and, for the linear
upper radial index, `r_cell ≥ -1`. -/
theorem stencil_indices_in_bounds (Nz Nr : ℤ) (r_cell z_cell : ℚ)
    (hNz : 1 ≤ Nz) (hNr : 1 ≤ Nr) :
    (0 ≤ (linStencilCore Nz Nr r_cell z_cell).ir_lower ∧
      (linStencilCore Nz Nr r_cell z_cell).ir_lower ≤ Nr - 1) ∧
    (-1 ≤ r_cell →
      0 ≤ (linStencilCore Nz Nr r_cell z_cell).ir_upper ∧
        (linStencilCore Nz Nr r_cell z_cell).ir_upper ≤ Nr - 1) ∧
    (-Nz ≤ ⌊z_cell⌋ → ⌊z_cell⌋ + 1 ≤ 2 * Nz - 1 →
      (0 ≤ (linStencilCore Nz Nr r_cell z_cell).iz_lower ∧
        (linStencilCore Nz Nr r_cell z_cell).iz_lower ≤ Nz - 1) ∧
      (0 ≤ (linStencilCore Nz Nr r_cell z_cell).iz_upper ∧
        (linStencilCore Nz Nr r_cell z_cell).iz_upper ≤ Nz - 1)) ∧
    (-Nz + 1 ≤ ⌊z_cell⌋ → ⌊z_cell⌋ + 2 ≤ 2 * Nz - 1 →
      ∀ j : Fin 4,
        0 ≤ (cubicStencilCore Nz Nr r_cell z_cell).iz j ∧
          (cubicStencilCore Nz Nr r_cell z_cell).iz j ≤ Nz - 1) ∧
    (∀ j : Fin 4,
      0 ≤ (cubicStencilCore Nz Nr r_cell z_cell).ir j ∧
        (cubicStencilCore Nz Nr r_cell z_cell).ir j ≤ Nr - 1) := by
  refine ⟨?_, ?_, ?_, ?_, fun j => rBound_mem Nr hNr _ _⟩
  · simp only [linStencilCore]
    split_ifs <;> constructor <;> omega
  · intro h
    have h1 : (-1 : ℤ) ≤ ⌊r_cell⌋ := by
      rw [Int.le_floor]
      exact_mod_cast h
    simp only [linStencilCore]
    split_ifs <;> constructor <;> omega
  · intro h1 h2
    exact ⟨wrapZ_mem Nz ⌊z_cell⌋ (by omega) (by omega),
      wrapZ_mem Nz (⌊z_cell⌋ + 1) (by omega) (by omega)⟩
  · intro h1 h2 j
    have hj : j.val < 4 := j.isLt
    exact wrapZ_mem Nz (cubicIdx z_cell j)
      (by simp only [cubicIdx]; omega) (by simp only [cubicIdx]; omega)

/-- Witness for the amended C1 at `Nz = Nr = 4`, `r_cell = 1/2`,
`z_cell = -9/4`, cubic index `j = 2`. -/
theorem stencil_indices_in_bounds_witness :
    (0 ≤ (linStencilCore 4 4 (1/2) (-9/4)).ir_upper ∧
      (linStencilCore 4 4 (1/2) (-9/4)).ir_upper ≤ 4 - 1) ∧
    (0 ≤ (linStencilCore 4 4 (1/2) (-9/4)).iz_lower ∧
      (linStencilCore 4 4 (1/2) (-9/4)).iz_lower ≤ 4 - 1) ∧
    (0 ≤ (cubicStencilCore 4 4 (1/2) (-9/4)).iz 2 ∧
      (cubicStencilCore 4 4 (1/2) (-9/4)).iz 2 ≤ 4 - 1) ∧
    (0 ≤ (cubicStencilCore 4 4 (1/2) (-9/4)).ir 2 ∧
      (cubicStencilCore 4 4 (1/2) (-9/4)).ir 2 ≤ 4 - 1) :=
  ⟨(stencil_indices_in_bounds 4 4 (1/2) (-9/4) (by norm_num)
      (by norm_num)).2.1 (by norm_num),
   ((stencil_indices_in_bounds 4 4 (1/2) (-9/4) (by norm_num)
      (by norm_num)).2.2.1 (by norm_num) (by norm_num)).1,
   (stencil_indices_in_bounds 4 4 (1/2) (-9/4) (by norm_num)
      (by norm_num)).2.2.2.1 (by norm_num) (by norm_num) 2,
   (stencil_indices_in_bounds 4 4 (1/2) (-9/4) (by norm_num)
      (by norm_num)).2.2.2.2 2⟩

/-- C7 counterexample: with `Nz = 2`, `dz = 1`, `zmin = 0` and
`ε = 7/4 ∈ (0, Nz·dz)`, gathering at `z = zmin - ε = -7/4` and at
`z = zmin + (Nz·dz - ε) = 1/4` differ: on the first side the raw lower
axial index `-3` wraps to `-1`, on the second side `-1` wraps to `1`, so a
field concentrated on row 1 is picked up only on the second side. -/
theorem axial_wrap_roundtrip_fails :
    (gather_field_gpu_linear 1 0 2 1 0 4 FzRow1 1 0 1 (-7/4)).Ez ≠
      (gather_field_gpu_linear 1 0 2 1 0 4 FzRow1 1 0 1 (1/4)).Ez := by
  norm_num [gather_field_gpu_linear, linGatherFromStencil, linStencil,
    linStencilCore, linAccumMode2, add_linear_gather_for_mode, cylCosSin,
    cmul, wrapZ, linSlower, linSupper, FzRow1, zeroFields]

/-- C2 counterexample: in the cubic kernel a particle beyond the outer
radial edge does not gather the same fields as one at the last valid
radial cell.  With `Nr = 4`, a particle at `r_cell = 5` has all four radial
indices clamped to 3, while a particle at `r_cell = Nr - 1 = 3` keeps index
2 with weight `1/6`; a radial E field concentrated on column 2 gives
`Ex = 0` for the first and `Ex = 1/6` for the second (same angle, same z). -/
theorem cubic_radial_clamp_differs :
    (gather_field_gpu_cubic 1 0 4 1 0 4 FrCol2 (11/2) 0 (11/2) (1/2)).Ex ≠
      (gather_field_gpu_cubic 1 0 4 1 0 4 FrCol2 (7/2) 0 (7/2) (1/2)).Ex := by
  norm_num [gather_field_gpu_cubic, cubicGatherFromStencil, cubicStencil,
    cubicStencilCore, cubicAccumMode2, add_cubic_gather_for_mode, cylCosSin,
    cmul, wrapZ, cubicIdx, cubicS, rBound, Fin.sum_univ_four, FrCol2,
    zeroFields, finv0, finv1, finv2, finv3]

/-- When both radial indices coincide, the linear accumulator depends on
the radial weights only through their sum. -/
lemma add_linear_collapse (e : Cx) (Ar At Az : Grid) (izl izu a : ℤ)
    (Szl Szu Srl Sru Srl' Sru' g1 g2 g1' g2' : ℚ) (Fv : ℚ × ℚ × ℚ)
    (hsum : Srl + Sru = Srl' + Sru') :
    add_linear_gather_for_mode e Ar At Az izl izu a a
        (Szl * Srl) (Szl * Sru) g1 (Szu * Srl) (Szu * Sru) g2 Fv =
      add_linear_gather_for_mode e Ar At Az izl izu a a
        (Szl * Srl') (Szl * Sru') g1' (Szu * Srl') (Szu * Sru') g2' Fv := by
  simp only [add_linear_gather_for_mode, Prod.mk.injEq]
  refine ⟨?_, ?_, ?_⟩
  · linear_combination
      (Szl * (cmul e (Ar izl a)).1 + Szu * (cmul e (Ar izu a)).1) * hsum
  · linear_combination
      (Szl * (cmul e (At izl a)).1 + Szu * (cmul e (At izu a)).1) * hsum
  · linear_combination
      (Szl * (cmul e (Az izl a)).1 + Szu * (cmul e (Az izu a)).1) * hsum

/-- Two-mode version of `add_linear_collapse`. -/
lemma linAccumMode2_collapse (e0 e1 : Cx) (A0r A0t A0z A1r A1t A1z : Grid)
    (izl izu a : ℤ) (Szl Szu Srl Sru Srl' Sru' g g' : ℚ)
    (hsum : Srl + Sru = Srl' + Sru') :
    linAccumMode2 e0 e1 A0r A0t A0z A1r A1t A1z
        ⟨izl, izu, a, a, Szl, Szu, Srl, Sru, g⟩ =
      linAccumMode2 e0 e1 A0r A0t A0z A1r A1t A1z
        ⟨izl, izu, a, a, Szl, Szu, Srl', Sru', g'⟩ := by
  unfold linAccumMode2
  dsimp only
  rw [add_linear_collapse e0 A0r A0t A0z izl izu a Szl Szu Srl Sru Srl' Sru'
    (Szl * g) (Szu * g) (Szl * g') (Szu * g') (0, 0, 0) hsum]
  exact add_linear_collapse e1 A1r A1t A1z izl izu a Szl Szu Srl Sru Srl' Sru'
    (Szl * g) (Szu * g) (Szl * g') (Szu * g') _ hsum

/-- Kernel-output version of `add_linear_collapse`: with both radial
indices equal, only the sum of the radial weights matters. -/
lemma linGather_collapse (F : Fields) (cs : ℚ × ℚ) (izl izu a : ℤ)
    (Szl Szu Srl Sru Srl' Sru' g g' : ℚ) (hsum : Srl + Sru = Srl' + Sru') :
    linGatherFromStencil F cs ⟨izl, izu, a, a, Szl, Szu, Srl, Sru, g⟩ =
      linGatherFromStencil F cs ⟨izl, izu, a, a, Szl, Szu, Srl', Sru', g'⟩ := by
  simp only [linGatherFromStencil]
  rw [linAccumMode2_collapse (1, 0) (cs.1, -cs.2) F.Er_m0 F.Et_m0 F.Ez_m0
        F.Er_m1 F.Et_m1 F.Ez_m1 izl izu a Szl Szu Srl Sru Srl' Sru' g g' hsum,
      linAccumMode2_collapse (1, 0) (cs.1, -cs.2) F.Br_m0 F.Bt_m0 F.Bz_m0
        F.Br_m1 F.Bt_m1 F.Bz_m1 izl izu a Szl Szu Srl Sru Srl' Sru' g g' hsum]

/-- C2 amended (linear kernel): a particle whose radial fractional
coordinate is at least `Nr - 1` gathers exactly the same six outputs as a
particle with the same angle and `z` placed exactly at radial fractional
coordinate `Nr - 1`.  (The cubic kernel violates the original claim, see
`cubic_radial_clamp_differs`.) -/
theorem linear_outer_radial_clamp (invdz zmin : ℚ) (Nz : ℤ) (invdr rmin : ℚ)
    (Nr : ℤ) (F : Fields) (x1 y1 r1 x2 y2 r2 zj : ℚ) (hNr : 1 ≤ Nr)
    (hangle : cylCosSin x1 y1 r1 = cylCosSin x2 y2 r2)
    (h1 : ((Nr : ℚ) - 1) ≤ invdr * (r1 - rmin) - 1/2)
    (h2 : invdr * (r2 - rmin) - 1/2 = (Nr : ℚ) - 1) :
    gather_field_gpu_linear invdz zmin Nz invdr rmin Nr F x1 y1 r1 zj =
      gather_field_gpu_linear invdz zmin Nz invdr rmin Nr F x2 y2 r2 zj := by
  have hf1 : (Nr - 1 : ℤ) ≤ ⌊invdr * (r1 - rmin) - 1/2⌋ := by
    rw [Int.le_floor]
    push_cast
    linarith
  have hc2 : invdr * (r2 - rmin) - 1/2 = ((Nr - 1 : ℤ) : ℚ) := by
    push_cast
    linarith
  have hf2 : ⌊invdr * (r2 - rmin) - 1/2⌋ = Nr - 1 := by
    rw [hc2, Int.floor_intCast]
  have hst1 : linStencilCore Nz Nr (invdr * (r1 - rmin) - 1/2)
      (invdz * (zj - zmin) - 1/2) =
      ⟨wrapZ Nz ⌊invdz * (zj - zmin) - 1/2⌋,
       wrapZ Nz (⌊invdz * (zj - zmin) - 1/2⌋ + 1), Nr - 1, Nr - 1,
       linSlower (invdz * (zj - zmin) - 1/2),
       linSupper (invdz * (zj - zmin) - 1/2),
       linSlower (invdr * (r1 - rmin) - 1/2),
       linSupper (invdr * (r1 - rmin) - 1/2), 0⟩ := by
    have h0 : ¬ (⌊invdr * (r1 - rmin) - 1/2⌋ < 0) := by omega
    have hup : ⌊invdr * (r1 - rmin) - 1/2⌋ + 1 > Nr - 1 := by omega
    by_cases hgt : ⌊invdr * (r1 - rmin) - 1/2⌋ > Nr - 1
    · simp only [linStencilCore, if_neg h0, if_pos hup, if_pos hgt]
    · have heq : ⌊invdr * (r1 - rmin) - 1/2⌋ = Nr - 1 := by omega
      simp only [linStencilCore, heq,
        if_neg (by omega : ¬ (Nr - 1 < 0)),
        if_pos (by omega : Nr - 1 + 1 > Nr - 1),
        if_neg (by omega : ¬ (Nr - 1 > Nr - 1))]
  have hst2 : linStencilCore Nz Nr (invdr * (r2 - rmin) - 1/2)
      (invdz * (zj - zmin) - 1/2) =
      ⟨wrapZ Nz ⌊invdz * (zj - zmin) - 1/2⌋,
       wrapZ Nz (⌊invdz * (zj - zmin) - 1/2⌋ + 1), Nr - 1, Nr - 1,
       linSlower (invdz * (zj - zmin) - 1/2),
       linSupper (invdz * (zj - zmin) - 1/2), 1, 0, 0⟩ := by
    have hSl : linSlower (invdr * (r2 - rmin) - 1/2) = 1 := by
      unfold linSlower
      rw [hf2, hc2]
      push_cast
      ring
    have hSu : linSupper (invdr * (r2 - rmin) - 1/2) = 0 := by
      unfold linSupper
      rw [hf2, hc2]
      push_cast
      ring
    simp only [linStencilCore, hSl, hSu, hf2,
      if_neg (by omega : ¬ (Nr - 1 < 0)),
      if_pos (by omega : Nr - 1 + 1 > Nr - 1),
      if_neg (by omega : ¬ (Nr - 1 > Nr - 1))]
  unfold gather_field_gpu_linear linStencil
  rw [hangle, hst1, hst2]
  exact linGather_collapse F (cylCosSin x2 y2 r2) _ _ (Nr - 1)
    (linSlower (invdz * (zj - zmin) - 1/2))
    (linSupper (invdz * (zj - zmin) - 1/2))
    (linSlower (invdr * (r1 - rmin) - 1/2))
    (linSupper (invdr * (r1 - rmin) - 1/2))
    1 0 0 0 (by rw [linS_add]; norm_num)

/-- Witness for the amended C2: `Nr = 4`, particle at `r_cell = 5` versus
particle at `r_cell = 3`, both on the positive x axis. -/
theorem linear_outer_radial_clamp_witness :
    cylCosSin (11/2) 0 (11/2) = cylCosSin (7/2) 0 (7/2) ∧
    gather_field_gpu_linear 1 0 4 1 0 4 zeroFields (11/2) 0 (11/2) (1/2) =
      gather_field_gpu_linear 1 0 4 1 0 4 zeroFields (7/2) 0 (7/2) (1/2) :=
  ⟨by norm_num [cylCosSin], linear_outer_radial_clamp 1 0 4 1 0 4 zeroFields
    (11/2) 0 (11/2) (7/2) 0 (7/2) (1/2) (by norm_num)
    (by norm_num [cylCosSin]) (by norm_num) (by norm_num)⟩

/-- Shifting the coordinate by an integer leaves the lower linear weight
unchanged. -/
lemma linSlower_period (c : ℚ) (n : ℤ) : linSlower (c + n) = linSlower c := by
  unfold linSlower
  rw [Int.floor_add_int]
  push_cast
  ring

/-- Shifting the coordinate by an integer leaves the upper linear weight
unchanged. -/
lemma linSupper_period (c : ℚ) (n : ℤ) : linSupper (c + n) = linSupper c := by
  unfold linSupper
  rw [Int.floor_add_int]
  push_cast
  ring

/-- Shifting the coordinate by an integer leaves the cubic weights
unchanged. -/
lemma cubicS_period (c : ℚ) (n : ℤ) (j : Fin 4) :
    cubicS (c + n) j = cubicS c j := by
  unfold cubicS
  rw [Int.floor_add_int]
  split_ifs <;> (push_cast; ring)

/-- The linear stencil is invariant under a shift of the axial coordinate
by one period, provided the raw axial indices stay within `[-Nz, Nz-1]`. -/
lemma linStencilCore_period (Nz Nr : ℤ) (rc zc : ℚ) (h1 : -Nz ≤ ⌊zc⌋)
    (h2 : ⌊zc⌋ ≤ -1) (hNz : 1 ≤ Nz) :
    linStencilCore Nz Nr rc (zc + (Nz : ℚ)) = linStencilCore Nz Nr rc zc := by
  have hfl : ⌊zc + (Nz : ℚ)⌋ = ⌊zc⌋ + Nz := Int.floor_add_int zc Nz
  simp only [linStencilCore, hfl, linSlower_period, linSupper_period]
  rw [wrapZ_period Nz ⌊zc⌋ h1 (by omega),
    show ⌊zc⌋ + Nz + 1 = (⌊zc⌋ + 1) + Nz by ring,
    wrapZ_period Nz (⌊zc⌋ + 1) (by omega) (by omega)]

/-- The cubic stencil is invariant under a shift of the axial coordinate
by one period, provided the raw axial indices stay within `[-Nz, Nz-1]`. -/
lemma cubicStencilCore_period (Nz Nr : ℤ) (rc zc : ℚ)
    (h1 : -Nz + 1 ≤ ⌊zc⌋) (h2 : ⌊zc⌋ ≤ -1) (hNz : 2 ≤ Nz) :
    cubicStencilCore Nz Nr rc (zc + (Nz : ℚ)) =
      cubicStencilCore Nz Nr rc zc := by
  have hfl : ⌊zc + (Nz : ℚ)⌋ = ⌊zc⌋ + Nz := Int.floor_add_int zc Nz
  unfold cubicStencilCore
  congr 1
  · funext j
    have hj : j.val < 4 := j.isLt
    have hidx : cubicIdx (zc + (Nz : ℚ)) j = cubicIdx zc j + Nz := by
      simp only [cubicIdx, hfl]
      ring
    rw [hidx, wrapZ_period Nz (cubicIdx zc j)
      (by simp only [cubicIdx]; omega) (by simp only [cubicIdx]; omega)]
  · funext j
    exact cubicS_period zc Nz j

/-- C7 amended: gathering at `z = zmin - ε` and at
`z = zmin + (Nz·dz - ε)` (with `dz = 1/invdz`) produce identical outputs
in exact arithmetic, provided `ε > 0` stays far enough from the full
period that the singly-applied wrap covers all raw indices:
`invdz·ε ≤ Nz - 1/2` suffices for the linear kernel and
`invdz·ε ≤ Nz - 3/2` for the cubic kernel (the original claim, which
allowed every `ε < Nz·dz`, fails — see `axial_wrap_roundtrip_fails`). -/
theorem axial_wrap_roundtrip (invdz zmin invdr rmin : ℚ) (Nz Nr : ℤ)
    (F : Fields) (xj yj rj ε : ℚ) (hinv : 0 < invdz) (hε : 0 < ε)
    (hNz : 2 ≤ Nz) :
    (invdz * ε ≤ (Nz : ℚ) - 1/2 →
      gather_field_gpu_linear invdz zmin Nz invdr rmin Nr F xj yj rj
          (zmin - ε) =
        gather_field_gpu_linear invdz zmin Nz invdr rmin Nr F xj yj rj
          (zmin + (Nz : ℚ) * (1 / invdz) - ε)) ∧
    (invdz * ε ≤ (Nz : ℚ) - 3/2 →
      gather_field_gpu_cubic invdz zmin Nz invdr rmin Nr F xj yj rj
          (zmin - ε) =
        gather_field_gpu_cubic invdz zmin Nz invdr rmin Nr F xj yj rj
          (zmin + (Nz : ℚ) * (1 / invdz) - ε)) := by
  have hinv0 : invdz ≠ 0 := ne_of_gt hinv
  have hc : invdz * ((zmin + (Nz : ℚ) * (1 / invdz) - ε) - zmin) - 1/2 =
      (invdz * ((zmin - ε) - zmin) - 1/2) + (Nz : ℚ) := by
    field_simp
    ring
  have hmul : 0 < invdz * ε := mul_pos hinv hε
  have hneg : invdz * ((zmin - ε) - zmin) - 1/2 < 0 := by nlinarith
  have hhi : ⌊invdz * ((zmin - ε) - zmin) - 1/2⌋ ≤ -1 := by
    have := Int.floor_lt.mpr (show invdz * ((zmin - ε) - zmin) - 1/2 <
      ((0 : ℤ) : ℚ) by exact_mod_cast hneg)
    omega
  constructor
  · intro hε2
    have hlow : (-Nz : ℤ) ≤ ⌊invdz * ((zmin - ε) - zmin) - 1/2⌋ := by
      rw [Int.le_floor]
      push_cast
      nlinarith
    unfold gather_field_gpu_linear linStencil
    rw [hc, linStencilCore_period Nz Nr _ _ hlow hhi (by omega)]
  · intro hε2
    have hlow : (-Nz + 1 : ℤ) ≤ ⌊invdz * ((zmin - ε) - zmin) - 1/2⌋ := by
      rw [Int.le_floor]
      push_cast
      nlinarith
    unfold gather_field_gpu_cubic cubicStencil
    rw [hc, cubicStencilCore_period Nz Nr _ _ hlow hhi hNz]

/-- Witness for the amended C7 at `invdz = 1`, `Nz = 4`, `ε = 1/2`. -/
theorem axial_wrap_roundtrip_witness :
    gather_field_gpu_linear 1 0 4 1 0 4 zeroFields 1 0 1 (0 - 1/2) =
      gather_field_gpu_linear 1 0 4 1 0 4 zeroFields 1 0 1
        (0 + ((4 : ℤ) : ℚ) * (1 / 1) - 1/2) ∧
    gather_field_gpu_cubic 1 0 4 1 0 4 zeroFields 1 0 1 (0 - 1/2) =
      gather_field_gpu_cubic 1 0 4 1 0 4 zeroFields 1 0 1
        (0 + ((4 : ℤ) : ℚ) * (1 / 1) - 1/2) :=
  ⟨(axial_wrap_roundtrip 1 0 1 0 4 4 zeroFields 1 0 1 (1/2) (by norm_num)
      (by norm_num) (by norm_num)).1 (by norm_num),
   (axial_wrap_roundtrip 1 0 1 0 4 4 zeroFields 1 0 1 (1/2) (by norm_num)
      (by norm_num) (by norm_num)).2 (by norm_num)⟩

/-- C5: for a particle with `x = 0` and `y = 0` (so `rj = 0`), both kernels
take the `cosine = 1`, `sine = 0` convention, the mode-1 phase factor is
`(1, 0)`, and the projection degenerates: the `x` outputs equal the
accumulated `Fr` and the `y` outputs the accumulated `Ft` (both accumulated
with phase `(1, 0)` for mode 1); no division by zero occurs since the
division branch is guarded by `rj ≠ 0`. -/
theorem gather_on_axis (invdz zmin : ℚ) (Nz : ℤ) (invdr rmin : ℚ) (Nr : ℤ)
    (F : Fields) (rj zj : ℚ) (h : rj * rj = 0 * 0 + 0 * 0) :
    cylCosSin 0 0 rj = (1, 0) ∧
    ((cylCosSin 0 0 rj).1, -(cylCosSin 0 0 rj).2) = ((1 : ℚ), (0 : ℚ)) ∧
    (gather_field_gpu_linear invdz zmin Nz invdr rmin Nr F 0 0 rj zj).Ex =
      (linAccumMode2 (1, 0) (1, 0) F.Er_m0 F.Et_m0 F.Ez_m0 F.Er_m1 F.Et_m1
        F.Ez_m1 (linStencil invdz zmin Nz invdr rmin Nr rj zj)).1 ∧
    (gather_field_gpu_linear invdz zmin Nz invdr rmin Nr F 0 0 rj zj).Ey =
      (linAccumMode2 (1, 0) (1, 0) F.Er_m0 F.Et_m0 F.Ez_m0 F.Er_m1 F.Et_m1
        F.Ez_m1 (linStencil invdz zmin Nz invdr rmin Nr rj zj)).2.1 ∧
    (gather_field_gpu_linear invdz zmin Nz invdr rmin Nr F 0 0 rj zj).Bx =
      (linAccumMode2 (1, 0) (1, 0) F.Br_m0 F.Bt_m0 F.Bz_m0 F.Br_m1 F.Bt_m1
        F.Bz_m1 (linStencil invdz zmin Nz invdr rmin Nr rj zj)).1 ∧
    (gather_field_gpu_linear invdz zmin Nz invdr rmin Nr F 0 0 rj zj).By =
      (linAccumMode2 (1, 0) (1, 0) F.Br_m0 F.Bt_m0 F.Bz_m0 F.Br_m1 F.Bt_m1
        F.Bz_m1 (linStencil invdz zmin Nz invdr rmin Nr rj zj)).2.1 ∧
    (gather_field_gpu_cubic invdz zmin Nz invdr rmin Nr F 0 0 rj zj).Ex =
      (cubicAccumMode2 (1, 0) (1, 0) F.Er_m0 F.Et_m0 F.Ez_m0 F.Er_m1 F.Et_m1
        F.Ez_m1 (cubicStencil invdz zmin Nz invdr rmin Nr rj zj)).1 ∧
    (gather_field_gpu_cubic invdz zmin Nz invdr rmin Nr F 0 0 rj zj).Ey =
      (cubicAccumMode2 (1, 0) (1, 0) F.Er_m0 F.Et_m0 F.Ez_m0 F.Er_m1 F.Et_m1
        F.Ez_m1 (cubicStencil invdz zmin Nz invdr rmin Nr rj zj)).2.1 ∧
    (gather_field_gpu_cubic invdz zmin Nz invdr rmin Nr F 0 0 rj zj).Bx =
      (cubicAccumMode2 (1, 0) (1, 0) F.Br_m0 F.Bt_m0 F.Bz_m0 F.Br_m1 F.Bt_m1
        F.Bz_m1 (cubicStencil invdz zmin Nz invdr rmin Nr rj zj)).1 ∧
    (gather_field_gpu_cubic invdz zmin Nz invdr rmin Nr F 0 0 rj zj).By =
      (cubicAccumMode2 (1, 0) (1, 0) F.Br_m0 F.Bt_m0 F.Bz_m0 F.Br_m1 F.Bt_m1
        F.Bz_m1 (cubicStencil invdz zmin Nz invdr rmin Nr rj zj)).2.1 := by
  have hr0 : rj = 0 := mul_self_eq_zero.mp (by simpa using h)
  subst hr0
  have hcs : cylCosSin 0 0 0 = (1, 0) := by norm_num [cylCosSin]
  refine ⟨hcs, by rw [hcs]; norm_num, ?_, ?_, ?_, ?_, ?_, ?_, ?_, ?_⟩ <;>
    · simp only [gather_field_gpu_linear, gather_field_gpu_cubic,
        linGatherFromStencil, cubicGatherFromStencil, hcs]
      norm_num

/-- Witness for C5 at the origin with all-zero fields. -/
theorem gather_on_axis_witness :
    (0 : ℚ) * 0 = 0 * 0 + 0 * 0 ∧
    cylCosSin 0 0 0 = (1, 0) ∧
    (gather_field_gpu_linear 1 0 4 1 0 4 zeroFields 0 0 0 0).Ex =
      (linAccumMode2 (1, 0) (1, 0) zeroFields.Er_m0 zeroFields.Et_m0
        zeroFields.Ez_m0 zeroFields.Er_m1 zeroFields.Et_m1 zeroFields.Ez_m1
        (linStencil 1 0 4 1 0 4 0 0)).1 :=
  ⟨by norm_num, (gather_on_axis 1 0 4 1 0 4 zeroFields 0 0 (by norm_num)).1,
   (gather_on_axis 1 0 4 1 0 4 zeroFields 0 0 (by norm_num)).2.2.1⟩
